import Mathlib

/-!
Verification of the input normalization and gesture-detection engine of the
gabagool UI toolkit (Go sources: pkg/gabagool/internal input processor and
the input-mapping loader/serializer).

The Go code is shallowly embedded:
- Go maps become association lists over Int keys, written with an upsert
  operation that replaces an existing key in place (matching Go map writes);
  map iteration order, which Go leaves unspecified, is determinized as list
  order.
- time.Time and time.Duration become Int (nanoseconds); time.Now() becomes an
  explicit now parameter of each call.  The Go zero time.Time value (IsZero)
  is modelled as 0; real clock readings are strictly positive, which appears
  as a positivity hypothesis where the code relies on the zero sentinel.
- Machine integers become Int; the two narrowing conversions that can wrap
  (int to int32 for SDL key and controller-button codes, int to uint8 for hat
  and axis indices) are modelled explicitly by wrap32 and wrap8, and the
  int16 negation of an axis threshold by int16Neg.
- Combo callbacks (OnTrigger / OnRelease function values) are modelled by
  presence flags plus a trace field on the processor recording which
  callbacks were invoked, in order; this is the only side effect of the
  callbacks that the engine itself performs.
- Logging is omitted: it does not affect any state or result.

VirtualButton is declared in the constants package, which is not among the
sources; per the spec it is a closed enumeration serialized by its integer
ordinal, so it is modelled as Int (its ordinal).
-/

namespace Gabagool

/-- VirtualButton, modelled by its integer enumeration ordinal. -/
abbrev VirtualButton := Int

/-- Go map read: first (and, for maps built by upsert, only) binding of k. -/
def lookup {α : Type} (k : Int) : List (Int × α) → Option α
  | [] => none
  | kv :: rest => if kv.1 = k then some kv.2 else lookup k rest

/-- Go map read with the zero value as default for a missing key. -/
def lookupD (k : Int) (l : List (Int × Int)) : Int :=
  (lookup k l).getD 0

/-- Go map write: replace the binding of k in place, or append a new one. -/
def upsert {α : Type} (k : Int) (v : α) : List (Int × α) → List (Int × α)
  | [] => [(k, v)]
  | kv :: rest => if kv.1 = k then (k, v) :: rest else kv :: upsert k v rest

/-- The keys of an association-list map. -/
def keysOf {α : Type} (l : List (Int × α)) : List Int :=
  l.map Prod.fst

/-- The map has no duplicate keys (true of every Go map). -/
def NodupKeys {α : Type} (l : List (Int × α)) : Prop :=
  (keysOf l).Nodup

/-- A Go loop `for k, v := range entries { m[f(k)] = v }` into a fresh map m. -/
def buildMap {α : Type} (f : Int → Int) (entries : List (Int × α)) : List (Int × α) :=
  entries.foldl (fun acc kv => upsert (f kv.1) kv.2 acc) []

/-- Go conversion int -> int32 (two-complement wrap), as used for
sdl.Keycode and sdl.GameControllerButton codes read from JSON. -/
def wrap32 (z : Int) : Int :=
  (z + 2147483648) % 4294967296 - 2147483648

/-- Go conversion int -> uint8, as used for hat values and axis indices
read from JSON. -/
def wrap8 (z : Int) : Int :=
  z % 256

/-- Go negation of an int16; exact except at the minimum value, where the
two-complement result wraps back to itself. -/
def int16Neg (t : Int) : Int :=
  if t = -32768 then -32768 else -t

/-- JoystickAxisMapping from the input-mapping loader: the two virtual
buttons and the int16 threshold of one analog axis.  The wire form of an
axis entry (positive_button / negative_button / threshold) carries exactly
the same three fields, with identity conversions, so the same structure
serves for both. -/
structure JoystickAxisMapping where
  PositiveButton : VirtualButton
  NegativeButton : VirtualButton
  Threshold : Int
  deriving Repr, DecidableEq

/-- InputMapping: the six lookup tables of the engine.  Keys are the raw
physical codes (sdl.Keycode and sdl.GameControllerButton are int32, the
rest are uint8); values are virtual buttons or axis mappings. -/
structure InputMapping where
  KeyboardMap : List (Int × VirtualButton)
  ControllerButtonMap : List (Int × VirtualButton)
  ControllerHatMap : List (Int × VirtualButton)
  JoystickAxisMap : List (Int × JoystickAxisMapping)
  JoystickButtonMap : List (Int × VirtualButton)
  JoystickHatMap : List (Int × VirtualButton)
  deriving Repr, DecidableEq

/-- Mapping: the serializable wire form of InputMapping, with plain Go int
keys and values, exactly as produced by decoding the JSON document.  The
JSON encode of this structure followed by its decode is the identity on it
(object keys are decimal strings of the int keys and round-trip exactly),
so the byte level of ToJSON / LoadInputMappingFromBytes is modelled as this
structure itself. -/
structure Mapping where
  keyboard_map : List (Int × Int)
  controller_button_map : List (Int × Int)
  controller_hat_map : List (Int × Int)
  joystick_axis_map : List (Int × JoystickAxisMapping)
  joystick_button_map : List (Int × Int)
  joystick_hat_map : List (Int × Int)
  deriving Repr, DecidableEq

/-- LoadInputMappingFromBytes, after the JSON decode into Mapping: convert
every wire entry into the typed tables, narrowing each key with the Go
conversion of the destination key type (int32 for keyboard and controller
buttons, uint8 for hats, axes and joystick buttons); values convert by
identity (VirtualButton ordinals and the axis triple). -/
def LoadInputMappingFromBytes (w : Mapping) : InputMapping where
  KeyboardMap := buildMap wrap32 w.keyboard_map
  ControllerButtonMap := buildMap wrap32 w.controller_button_map
  ControllerHatMap := buildMap wrap8 w.controller_hat_map
  JoystickAxisMap := buildMap wrap8 w.joystick_axis_map
  JoystickButtonMap := buildMap wrap8 w.joystick_button_map
  JoystickHatMap := buildMap wrap8 w.joystick_hat_map

/-- InputMapping.ToJSON up to the JSON encode: rebuild the wire maps entry
by entry; every key conversion is the widening int(k), i.e. the identity. -/
def InputMapping.ToJSON (im : InputMapping) : Mapping where
  keyboard_map := buildMap (fun k => k) im.KeyboardMap
  controller_button_map := buildMap (fun k => k) im.ControllerButtonMap
  controller_hat_map := buildMap (fun k => k) im.ControllerHatMap
  joystick_axis_map := buildMap (fun k => k) im.JoystickAxisMap
  joystick_button_map := buildMap (fun k => k) im.JoystickButtonMap
  joystick_hat_map := buildMap (fun k => k) im.JoystickHatMap

/-- Source of a semantic event (the SDL origin kinds the processor emits). -/
inductive Source where
  | keyboard
  | controller
  | joystick
  | joystickAxisPositive
  | joystickAxisNegative
  | hatSwitch
  deriving Repr, DecidableEq

/-- A semantic virtual-button event. -/
structure Event where
  Button : VirtualButton
  Pressed : Bool
  Source : Source
  RawCode : Int
  deriving Repr, DecidableEq

/-- ComboType distinguishes chord and sequence combinations. -/
inductive ComboType where
  | chord
  | seqKind
  deriving Repr, DecidableEq

/-- A triggered (or, for chords, released) button combination. -/
structure ComboEvent where
  ComboID : String
  ComboType : ComboType
  Buttons : List VirtualButton
  Triggered : Bool
  deriving Repr, DecidableEq

/-- ChordOptions; the callbacks are modelled by presence flags (a nil Go
function value is absent). -/
structure ChordOptions where
  Window : Int
  hasOnTrigger : Bool
  hasOnRelease : Bool
  deriving Repr, DecidableEq

/-- SequenceOptions; the callback is modelled by a presence flag. -/
structure SequenceOptions where
  Timeout : Int
  Strict : Bool
  hasOnTrigger : Bool
  deriving Repr, DecidableEq

/-- The Type / Chord / Sequence fields of a registered combo.  In the Go
struct these are a tag plus two nullable pointers; the only two
constructors (RegisterChord, RegisterSequence) keep exactly the pointer
matching the tag non-nil, which this sum type captures. -/
inductive ComboConfig where
  | chord (opts : ChordOptions)
  | seq (opts : SequenceOptions)
  deriving Repr, DecidableEq

/-- A registered combo. -/
structure RegisteredCombo where
  ID : String
  Buttons : List VirtualButton
  config : ComboConfig
  active : Bool
  deriving Repr, DecidableEq

/-- buttonState: the last transition of one virtual button. -/
structure ButtonState where
  Pressed : Bool
  PressTime : Int
  deriving Repr, DecidableEq

/-- sequenceEntry: one recorded button press for sequence matching. -/
structure SequenceEntry where
  Button : VirtualButton
  Time : Int
  deriving Repr, DecidableEq

/-- The Processor state.  The calls field is the trace of combo callback
invocations (combo ID, true for OnTrigger and false for OnRelease), in the
order the Go code would call them; it stands in for the calls themselves. -/
structure Processor where
  mapping : InputMapping
  axisStates : List (Int × Int)
  hatStates : List (Int × Int)
  eventQueue : List Event
  buttonStates : List (Int × ButtonState)
  registeredCombos : List RegisteredCombo
  comboEventQueue : List ComboEvent
  sequenceBuffer : List SequenceEntry
  calls : List (String × Bool)
  deriving Repr, DecidableEq

/-- A raw SDL event, reduced to the fields the processor reads.  The down
flag of the discrete kinds is the comparison of e.Type with the
corresponding DOWN constant in the Go code. -/
inductive SDLEvent where
  | keyboard (keyCode : Int) (down : Bool)
  | controllerButton (buttonCode : Int) (down : Bool)
  | joyHat (hat : Int) (value : Int)
  | controllerAxis (axis : Int) (value : Int)
  | joyButton (buttonCode : Int) (down : Bool)
  | joyAxis (axis : Int) (value : Int)
  deriving Repr, DecidableEq

/-- RegisterChord: reject fewer than 2 buttons, default the window to 100ms
(in nanoseconds), append the combo.  The Go method returns only an error;
here the pair carries the (possibly unchanged) state and the error text. -/
def Processor.RegisterChord (ip : Processor) (id : String)
    (buttons : List VirtualButton) (opts : ChordOptions) : Processor × Option String :=
  if buttons.length < 2 then
    (ip, some "chord requires at least 2 buttons")
  else
    let opts := if opts.Window = 0 then { opts with Window := 100000000 } else opts
    ({ ip with registeredCombos :=
        ip.registeredCombos ++ [⟨id, buttons, ComboConfig.chord opts, false⟩] }, none)

/-- RegisterSequence: reject fewer than 2 buttons, default the timeout to
500ms (in nanoseconds), append the combo. -/
def Processor.RegisterSequence (ip : Processor) (id : String)
    (buttons : List VirtualButton) (opts : SequenceOptions) : Processor × Option String :=
  if buttons.length < 2 then
    (ip, some "sequence requires at least 2 buttons")
  else
    let opts := if opts.Timeout = 0 then { opts with Timeout := 500000000 } else opts
    ({ ip with registeredCombos :=
        ip.registeredCombos ++ [⟨id, buttons, ComboConfig.seq opts, false⟩] }, none)

/-- The loop body of UnregisterCombo: drop the first combo with this ID. -/
def removeFirstCombo (id : String) : List RegisteredCombo → List RegisteredCombo
  | [] => []
  | c :: rest => if c.ID = id then rest else c :: removeFirstCombo id rest

/-- UnregisterCombo removes the first registered combo with the given ID
(a no-op when none matches). -/
def Processor.UnregisterCombo (ip : Processor) (id : String) : Processor :=
  { ip with registeredCombos := removeFirstCombo id ip.registeredCombos }

/-- addToSequenceBuffer: append the press and keep only the last 20. -/
def Processor.addToSequenceBuffer (ip : Processor) (button : VirtualButton) (t : Int) : Processor :=
  let buf := ip.sequenceBuffer ++ [⟨button, t⟩]
  let buf := if buf.length > 20 then buf.drop (buf.length - 20) else buf
  { ip with sequenceBuffer := buf }

/-- The single pass of the per-chord loop in checkChords: walking the
buttons of the chord, break at the first missing or unpressed state,
otherwise accumulate earliest and latest press times with the Go
zero-value sentinel (earliest is replaced while it IsZero). -/
structure ChordScan where
  allPressed : Bool
  earliest : Int
  latest : Int
  deriving Repr, DecidableEq

def chordScanAux (states : List (Int × ButtonState)) (earliest latest : Int) :
    List VirtualButton → ChordScan
  | [] => ⟨true, earliest, latest⟩
  | b :: rest =>
    match lookup b states with
    | none => ⟨false, earliest, latest⟩
    | some st =>
      if st.Pressed then
        chordScanAux states
          (if earliest = 0 ∨ st.PressTime < earliest then st.PressTime else earliest)
          (if latest < st.PressTime then st.PressTime else latest)
          rest
      else ⟨false, earliest, latest⟩

def chordScan (states : List (Int × ButtonState)) (buttons : List VirtualButton) : ChordScan :=
  chordScanAux states 0 0 buttons

/-- The result of evaluating one combo in a chord pass. -/
structure ComboStep where
  combo : RegisteredCombo
  events : List ComboEvent
  calls : List (String × Bool)
  deriving Repr, DecidableEq

/-- One iteration of the checkChords loop: skip sequences and active
chords; trigger an inactive chord whose buttons are all pressed with a
spread within the window. -/
def checkChordCombo (states : List (Int × ButtonState)) (combo : RegisteredCombo) : ComboStep :=
  match combo.config with
  | ComboConfig.seq _ => ⟨combo, [], []⟩
  | ComboConfig.chord opts =>
    if combo.active then ⟨combo, [], []⟩
    else
      let scan := chordScan states combo.Buttons
      if scan.allPressed = true ∧ scan.latest - scan.earliest ≤ opts.Window then
        ⟨{ combo with active := true },
         [⟨combo.ID, ComboType.chord, combo.Buttons, true⟩],
         if opts.hasOnTrigger then [(combo.ID, true)] else []⟩
      else ⟨combo, [], []⟩

/-- One iteration of the checkChordReleases loop: an active chord with any
button missing or unpressed deactivates and emits a release event. -/
def checkChordReleaseCombo (states : List (Int × ButtonState)) (combo : RegisteredCombo) : ComboStep :=
  match combo.config with
  | ComboConfig.seq _ => ⟨combo, [], []⟩
  | ComboConfig.chord opts =>
    if combo.active then
      if combo.Buttons.any (fun b =>
          match lookup b states with
          | some st => !st.Pressed
          | none => true) then
        ⟨{ combo with active := false },
         [⟨combo.ID, ComboType.chord, combo.Buttons, false⟩],
         if opts.hasOnRelease then [(combo.ID, false)] else []⟩
      else ⟨combo, [], []⟩
    else ⟨combo, [], []⟩

/-- The accumulated result of a whole chord pass over the combo list. -/
structure ComboPass where
  combos : List RegisteredCombo
  events : List ComboEvent
  calls : List (String × Bool)
  deriving Repr, DecidableEq

def runComboPass (step : RegisteredCombo → ComboStep) : List RegisteredCombo → ComboPass
  | [] => ⟨[], [], []⟩
  | c :: rest =>
    let s := step c
    let p := runComboPass step rest
    ⟨s.combo :: p.combos, s.events ++ p.events, s.calls ++ p.calls⟩

/-- checkChords: evaluate every registered combo against the current
button states, appending the produced combo events and callback calls in
registration order.  The now argument is unused, as in the source. -/
def Processor.checkChords (ip : Processor) (now : Int) : Processor :=
  let _ := now
  let p := runComboPass (checkChordCombo ip.buttonStates) ip.registeredCombos
  { ip with registeredCombos := p.combos,
            comboEventQueue := ip.comboEventQueue ++ p.events,
            calls := ip.calls ++ p.calls }

/-- checkChordReleases: deactivate released chords. -/
def Processor.checkChordReleases (ip : Processor) : Processor :=
  let p := runComboPass (checkChordReleaseCombo ip.buttonStates) ip.registeredCombos
  { ip with registeredCombos := p.combos,
            comboEventQueue := ip.comboEventQueue ++ p.events,
            calls := ip.calls ++ p.calls }

/-- The indexed loop of matchesSequence over the matched window: compare
button identity positionally and bound every adjacent gap by the timeout
(prev carries the previous entry, absent at the first index). -/
def seqWindowMatch (timeout : Int) :
    Option SequenceEntry → List SequenceEntry → List VirtualButton → Bool
  | _, _, [] => true
  | _, [], _ :: _ => false
  | prev, e :: es, b :: bs =>
    if e.Button = b then
      match prev with
      | some p => if timeout < e.Time - p.Time then false else seqWindowMatch timeout (some e) es bs
      | none => seqWindowMatch timeout (some e) es bs
    else false

/-- matchesSequence: the last N buffer entries must match the combo
buttons with bounded gaps; in strict mode additionally no earlier buffered
entry may lie within Timeout * N of now. -/
def matchesSequence (buffer : List SequenceEntry) (buttons : List VirtualButton)
    (opts : SequenceOptions) (now : Int) : Bool :=
  if buffer.length < buttons.length then false
  else
    let bufferStart := buffer.length - buttons.length
    if seqWindowMatch opts.Timeout none (buffer.drop bufferStart) buttons then
      if opts.Strict ∧ 0 < bufferStart then
        !((buffer.take bufferStart).any
          (fun e => now - e.Time < opts.Timeout * (buttons.length : Int)))
      else true
    else false

/-- The accumulated result of a sequence pass: produced events, callback
calls, and the sequence buffer after any clearing. -/
structure SeqPass where
  events : List ComboEvent
  calls : List (String × Bool)
  buffer : List SequenceEntry
  deriving Repr, DecidableEq

/-- The checkSequences loop: each matching sequence (against the buffer as
left by the previous iterations) emits a triggered event, invokes its
callback, and clears the buffer. -/
def checkSequencesList (now : Int) :
    List RegisteredCombo → List SequenceEntry → SeqPass
  | [], buf => ⟨[], [], buf⟩
  | c :: rest, buf =>
    match c.config with
    | ComboConfig.chord _ => checkSequencesList now rest buf
    | ComboConfig.seq opts =>
      if matchesSequence buf c.Buttons opts now then
        let p := checkSequencesList now rest []
        ⟨⟨c.ID, ComboType.seqKind, c.Buttons, true⟩ :: p.events,
         (if opts.hasOnTrigger then [(c.ID, true)] else []) ++ p.calls,
         p.buffer⟩
      else checkSequencesList now rest buf

/-- checkSequences at the processor level. -/
def Processor.checkSequences (ip : Processor) (now : Int) : Processor :=
  let p := checkSequencesList now ip.registeredCombos ip.sequenceBuffer
  { ip with comboEventQueue := ip.comboEventQueue ++ p.events,
            calls := ip.calls ++ p.calls,
            sequenceBuffer := p.buffer }

/-- updateButtonState: record the transition, then on a press feed the
sequence buffer and run both recognizers, on a release run the chord
release check. -/
def Processor.updateButtonState (ip : Processor) (button : VirtualButton)
    (pressed : Bool) (now : Int) : Processor :=
  let ip := { ip with buttonStates := upsert button ⟨pressed, now⟩ ip.buttonStates }
  if pressed then
    ((ip.addToSequenceBuffer button now).checkChords now).checkSequences now
  else
    ip.checkChordReleases

/-- createEvent: update combo-tracking state and build the semantic event. -/
def Processor.createEvent (ip : Processor) (button : VirtualButton) (pressed : Bool)
    (source : Source) (rawCode : Int) (now : Int) : Processor × Event :=
  (ip.updateButtonState button pressed now, ⟨button, pressed, source, rawCode⟩)

/-- The shared body of the two identical axis branches of ProcessSDLEvent
(ControllerAxisEvent and JoyAxisEvent differ only in the Source they
stamp): classify the sample against the threshold, and on a state change
emit the release for the previous direction first, else the press for the
new one. -/
def Processor.processAxisEvent (ip : Processor) (axis : Int) (value : Int)
    (source : Source) (now : Int) : Processor × Option Event :=
  match lookup axis ip.mapping.JoystickAxisMap with
  | none => (ip, none)
  | some axisConfig =>
    let previousState := lookupD axis ip.axisStates
    let newState : Int :=
      if axisConfig.Threshold < value then 1
      else if value < int16Neg axisConfig.Threshold then -1
      else 0
    if newState = previousState then (ip, none)
    else
      let ip := { ip with axisStates := upsert axis newState ip.axisStates }
      if previousState = 1 then
        let r := ip.createEvent axisConfig.PositiveButton false source axis now
        (r.1, some r.2)
      else if previousState = -1 then
        let r := ip.createEvent axisConfig.NegativeButton false source axis now
        (r.1, some r.2)
      else if newState = 1 then
        let r := ip.createEvent axisConfig.PositiveButton true source axis now
        (r.1, some r.2)
      else if newState = -1 then
        let r := ip.createEvent axisConfig.NegativeButton true source axis now
        (r.1, some r.2)
      else (ip, none)

/-- The tail of the JoyHatEvent branch, reached when the
release-on-direction-change case did not return: a press for a non-centered
mapped value, else a release when the hat returned to center from a mapped
direction, else nothing. -/
def Processor.processJoyHatRest (ip : Processor) (previousValue value now : Int) :
    Processor × Option Event :=
  if value ≠ 0 then
    match lookup value ip.mapping.JoystickHatMap with
    | some button =>
      let r := ip.createEvent button true Source.hatSwitch value now
      (r.1, some r.2)
    | none => (ip, none)
  else if previousValue ≠ 0 then
    match lookup previousValue ip.mapping.JoystickHatMap with
    | some button =>
      let r := ip.createEvent button false Source.hatSwitch previousValue now
      (r.1, some r.2)
    | none => (ip, none)
  else (ip, none)

/-- The JoyHatEvent branch: record the new hat value; if the previous
direction was set, different and mapped, queue the press for the (mapped,
non-centered) new direction and return the release for the previous one;
otherwise fall through to the press / return-to-center cases. -/
def Processor.processJoyHat (ip : Processor) (hat value : Int) (now : Int) :
    Processor × Option Event :=
  let previousValue := lookupD hat ip.hatStates
  let ip := { ip with hatStates := upsert hat value ip.hatStates }
  if previousValue ≠ 0 ∧ previousValue ≠ value then
    match lookup previousValue ip.mapping.JoystickHatMap with
    | some button =>
      let ip :=
        if value ≠ 0 then
          match lookup value ip.mapping.JoystickHatMap with
          | some newButton =>
            let ip := ip.updateButtonState newButton true now
            { ip with eventQueue :=
                ip.eventQueue ++ [⟨newButton, true, Source.hatSwitch, value⟩] }
          | none => ip
        else ip
      let r := ip.createEvent button false Source.hatSwitch previousValue now
      (r.1, some r.2)
    | none => ip.processJoyHatRest previousValue value now
  else ip.processJoyHatRest previousValue value now

/-- The switch of ProcessSDLEvent over the raw event kinds, reached when
the internal event queue is empty. -/
def Processor.processRaw (ip : Processor) (event : SDLEvent) (now : Int) :
    Processor × Option Event :=
  match event with
  | SDLEvent.keyboard keyCode down =>
    match lookup keyCode ip.mapping.KeyboardMap with
    | some button =>
      let r := ip.createEvent button down Source.keyboard keyCode now
      (r.1, some r.2)
    | none => (ip, none)
  | SDLEvent.controllerButton buttonCode down =>
    match lookup buttonCode ip.mapping.ControllerButtonMap with
    | some button =>
      let r := ip.createEvent button down Source.controller buttonCode now
      (r.1, some r.2)
    | none => (ip, none)
  | SDLEvent.joyHat hat value => ip.processJoyHat hat value now
  | SDLEvent.controllerAxis axis value => ip.processAxisEvent axis value Source.controller now
  | SDLEvent.joyButton buttonCode down =>
    match lookup buttonCode ip.mapping.JoystickButtonMap with
    | some button =>
      let r := ip.createEvent button down Source.joystick buttonCode now
      (r.1, some r.2)
    | none => (ip, none)
  | SDLEvent.joyAxis axis value => ip.processAxisEvent axis value Source.joystick now

/-- ProcessSDLEvent: drain the internal event queue first; only with an
empty queue is the raw event dispatched. -/
def Processor.ProcessSDLEvent (ip : Processor) (event : SDLEvent) (now : Int) :
    Processor × Option Event :=
  match ip.eventQueue with
  | evt :: rest => ({ ip with eventQueue := rest }, some evt)
  | [] => ip.processRaw event now

/-- ProcessComboEvent: pop-or-nil from the combo FIFO. -/
def Processor.ProcessComboEvent (ip : Processor) : Processor × Option ComboEvent :=
  match ip.comboEventQueue with
  | evt :: rest => ({ ip with comboEventQueue := rest }, some evt)
  | [] => (ip, none)

/-- Claim-level condition: every chord button has a recorded state with
Pressed true. -/
def allButtonsPressed (states : List (Int × ButtonState)) (buttons : List VirtualButton) : Bool :=
  buttons.all (fun b =>
    match lookup b states with
    | some st => st.Pressed
    | none => false)

/-- The recorded press times of the given buttons (0 for a missing state;
only consulted when all states are present). -/
def pressTimesOf (states : List (Int × ButtonState)) (buttons : List VirtualButton) : List Int :=
  buttons.map (fun b =>
    match lookup b states with
    | some st => st.PressTime
    | none => 0)

/-- Claim-level condition: max(PressTime) - min(PressTime) over the chord
buttons is at most w. -/
def chordSpreadLE (states : List (Int × ButtonState)) (buttons : List VirtualButton)
    (w : Int) : Bool :=
  match pressTimesOf states buttons with
  | [] => true
  | t :: ts => decide (ts.foldl max t - ts.foldl min t ≤ w)

/-- Claim-level condition: every adjacent pair of entries has a gap of at
most the timeout. -/
def adjacentWithin (timeout : Int) : List SequenceEntry → Bool
  | a :: b :: rest => decide (b.Time - a.Time ≤ timeout) && adjacentWithin timeout (b :: rest)
  | _ => true

/-- Whether the combo is a sequence. -/
def isSeqCombo (c : RegisteredCombo) : Bool :=
  match c.config with
  | ComboConfig.seq _ => true
  | ComboConfig.chord _ => false

/-- Whether the combo is a sequence matching the given buffer at time now. -/
def seqMatches (now : Int) (buf : List SequenceEntry) (c : RegisteredCombo) : Bool :=
  match c.config with
  | ComboConfig.seq opts => matchesSequence buf c.Buttons opts now
  | ComboConfig.chord _ => false

/-- An empty input mapping (concrete-evaluation fixture). -/
def emptyMapping : InputMapping :=
  ⟨[], [], [], [], [], []⟩

/-- A small concrete mapping: hat value 1 (up) and 2 (right) mapped, and
axis 0 mapped with threshold 100 (concrete-evaluation fixture). -/
def testMapping : InputMapping :=
  { emptyMapping with
      JoystickHatMap := [(1, 10), (2, 11)],
      JoystickAxisMap := [(0, ⟨20, 21, 100⟩)] }

/-- A processor in its initial state over the given mapping. -/
def baseProcessor (m : InputMapping) : Processor :=
  ⟨m, [], [], [], [], [], [], [], []⟩

/-! ## Map lemmas -/

theorem lookup_upsert {α : Type} (k c : Int) (v : α) (l : List (Int × α)) :
    lookup c (upsert k v l) = if k = c then some v else lookup c l := by
  induction l with
  | nil => simp [upsert, lookup]
  | cons kv rest ih =>
    by_cases h : kv.1 = k
    · by_cases h2 : k = c <;> simp [upsert, lookup, h, h2]
    · by_cases h2 : kv.1 = c
      · have hck : ¬ c = k := fun hk => h (by rw [h2, hk])
        have hkc : ¬ k = c := fun hk => hck hk.symm
        simp [upsert, lookup, h, h2, hck, hkc]
      · simp [upsert, lookup, h, h2, ih]

theorem mem_keysOf_upsert {α : Type} {k c : Int} {v : α} {l : List (Int × α)}
    (h : c ∈ keysOf (upsert k v l)) : c = k ∨ c ∈ keysOf l := by
  induction l with
  | nil => simpa [upsert, keysOf] using h
  | cons kv rest ih =>
    by_cases hk : kv.1 = k
    · simp only [upsert, hk, if_pos] at h
      rcases (by simpa [keysOf] using h : c = k ∨ c ∈ keysOf rest) with h1 | h1
      · exact Or.inl h1
      · exact Or.inr (by simp [keysOf]; right; simpa [keysOf] using h1)
    · simp only [upsert, hk, if_neg, not_false_iff] at h
      rcases (by simpa [keysOf] using h : c = kv.1 ∨ c ∈ keysOf (upsert k v rest)) with h1 | h1
      · exact Or.inr (by simp [keysOf, h1])
      · rcases ih h1 with h2 | h2
        · exact Or.inl h2
        · exact Or.inr (by simp [keysOf]; right; simpa [keysOf] using h2)

theorem nodupKeys_upsert {α : Type} (k : Int) (v : α) {l : List (Int × α)}
    (h : NodupKeys l) : NodupKeys (upsert k v l) := by
  induction l with
  | nil => simp [NodupKeys, upsert, keysOf]
  | cons kv rest ih =>
    have hrest : NodupKeys rest := by
      simpa [NodupKeys, keysOf] using (by simpa [NodupKeys, keysOf] using h : _ ∧ _).2
    have hne : kv.1 ∉ keysOf rest := by
      have := (by simpa [NodupKeys, keysOf] using h : kv.1 ∉ List.map Prod.fst rest ∧ (List.map Prod.fst rest).Nodup)
      simpa [keysOf] using this.1
    by_cases hk : kv.1 = k
    · have : keysOf ((k, v) :: rest) = k :: keysOf rest := by simp [keysOf]
      simp only [upsert, hk, if_pos]
      have : NodupKeys ((k, v) :: rest) := by
        simp only [NodupKeys, keysOf, List.map_cons, List.nodup_cons]
        constructor
        · intro hc; exact hne (by simpa [keysOf, hk] using hc)
        · simpa [NodupKeys, keysOf] using hrest
      exact this
    · simp only [upsert, hk, if_neg, not_false_iff]
      simp only [NodupKeys, keysOf, List.map_cons, List.nodup_cons]
      constructor
      · intro hc
        rcases mem_keysOf_upsert (by simpa [keysOf] using hc) with h1 | h1
        · exact hk h1
        · exact hne h1
      · simpa [NodupKeys, keysOf] using ih hrest

theorem upsert_of_not_mem {α : Type} (k : Int) (v : α) {l : List (Int × α)}
    (h : k ∉ keysOf l) : upsert k v l = l ++ [(k, v)] := by
  induction l with
  | nil => simp [upsert]
  | cons kv rest ih =>
    have h1 : kv.1 ≠ k := by
      intro he; exact h (by simp [keysOf, he])
    have h2 : k ∉ keysOf rest := by
      intro he; exact h (by simp [keysOf]; right; simpa [keysOf] using he)
    simp [upsert, h1, ih h2]

theorem buildMap_append {α : Type} (f : Int → Int) (l : List (Int × α)) (x : Int × α) :
    buildMap f (l ++ [x]) = upsert (f x.1) x.2 (buildMap f l) := by
  simp [buildMap, List.foldl_append]

theorem nodupKeys_buildMap {α : Type} (f : Int → Int) (l : List (Int × α)) :
    NodupKeys (buildMap f l) := by
  induction l using List.reverseRecOn with
  | nil => simp [buildMap, NodupKeys, keysOf]
  | append_singleton l x ih =>
    rw [buildMap_append]
    exact nodupKeys_upsert _ _ ih

theorem keysOf_buildMap_image {α : Type} (f : Int → Int) (l : List (Int × α)) :
    ∀ c ∈ keysOf (buildMap f l), ∃ z, c = f z := by
  induction l using List.reverseRecOn with
  | nil => intro c hc; simp [buildMap, keysOf] at hc
  | append_singleton l x ih =>
    intro c hc
    rw [buildMap_append] at hc
    rcases mem_keysOf_upsert hc with h1 | h1
    · exact ⟨x.1, h1⟩
    · exact ih c h1

theorem buildMap_fixed {α : Type} (f : Int → Int) {l : List (Int × α)}
    (hn : NodupKeys l) (hf : ∀ c ∈ keysOf l, f c = c) : buildMap f l = l := by
  induction l using List.reverseRecOn with
  | nil => rfl
  | append_singleton l x ih =>
    have hkeys : keysOf (l ++ [x]) = keysOf l ++ [x.1] := by simp [keysOf]
    have hn2 : NodupKeys l ∧ x.1 ∉ keysOf l := by
      rw [NodupKeys, hkeys] at hn
      rcases List.nodup_append.mp hn with ⟨ha, _, hdisj⟩
      exact ⟨ha, fun hc => hdisj hc (by simp)⟩
    rw [buildMap_append, ih hn2.1 (fun c hc => hf c (by rw [hkeys]; exact List.mem_append_left _ hc))]
    rw [hf x.1 (by rw [hkeys]; exact List.mem_append_right _ (by simp))]
    rw [upsert_of_not_mem _ _ hn2.2]

theorem wrap32_range (z : Int) : -2147483648 ≤ wrap32 z ∧ wrap32 z < 2147483648 := by
  unfold wrap32
  have h1 : 0 ≤ (z + 2147483648) % 4294967296 := Int.emod_nonneg _ (by norm_num)
  have h2 : (z + 2147483648) % 4294967296 < 4294967296 := Int.emod_lt_of_pos _ (by norm_num)
  omega

theorem wrap32_fixed {z : Int} (h1 : -2147483648 ≤ z) (h2 : z < 2147483648) :
    wrap32 z = z := by
  unfold wrap32
  rw [Int.emod_eq_of_lt (by omega) (by omega)]
  omega

theorem wrap32_idem (z : Int) : wrap32 (wrap32 z) = wrap32 z :=
  wrap32_fixed (wrap32_range z).1 (wrap32_range z).2

theorem wrap8_range (z : Int) : 0 ≤ wrap8 z ∧ wrap8 z < 256 := by
  unfold wrap8
  exact ⟨Int.emod_nonneg _ (by norm_num), Int.emod_lt_of_pos _ (by norm_num)⟩

theorem wrap8_fixed {z : Int} (h1 : 0 ≤ z) (h2 : z < 256) : wrap8 z = z :=
  Int.emod_eq_of_lt h1 h2

theorem wrap8_idem (z : Int) : wrap8 (wrap8 z) = wrap8 z :=
  wrap8_fixed (wrap8_range z).1 (wrap8_range z).2

/-- One table of the round trip: reloading the serialized form of a loaded
table gives back exactly the loaded table. -/
theorem roundTripField {α : Type} (f : Int → Int) (hf : ∀ z, f (f z) = f z)
    (w : List (Int × α)) :
    buildMap f (buildMap (fun k => k) (buildMap f w)) = buildMap f w := by
  have h1 : NodupKeys (buildMap f w) := nodupKeys_buildMap f w
  rw [buildMap_fixed (fun k => k) h1 (fun c _ => rfl)]
  refine buildMap_fixed f h1 (fun c hc => ?_)
  obtain ⟨z, rfl⟩ := keysOf_buildMap_image f w c hc
  exact hf z

/-- C7: for every mapping produced by the parser, serializing it with
ToJSON and re-parsing the produced wire form yields an equivalent mapping:
every physical code looks up to the same virtual button (and every axis
entry to the same positive button, negative button and threshold), and no
new codes appear, in any of the six tables. -/
theorem loadMapping_toJSON_roundTrip (w : Mapping) (c : Int) :
    lookup c (LoadInputMappingFromBytes (InputMapping.ToJSON (LoadInputMappingFromBytes w))).KeyboardMap
      = lookup c (LoadInputMappingFromBytes w).KeyboardMap ∧
    lookup c (LoadInputMappingFromBytes (InputMapping.ToJSON (LoadInputMappingFromBytes w))).ControllerButtonMap
      = lookup c (LoadInputMappingFromBytes w).ControllerButtonMap ∧
    lookup c (LoadInputMappingFromBytes (InputMapping.ToJSON (LoadInputMappingFromBytes w))).ControllerHatMap
      = lookup c (LoadInputMappingFromBytes w).ControllerHatMap ∧
    lookup c (LoadInputMappingFromBytes (InputMapping.ToJSON (LoadInputMappingFromBytes w))).JoystickAxisMap
      = lookup c (LoadInputMappingFromBytes w).JoystickAxisMap ∧
    lookup c (LoadInputMappingFromBytes (InputMapping.ToJSON (LoadInputMappingFromBytes w))).JoystickButtonMap
      = lookup c (LoadInputMappingFromBytes w).JoystickButtonMap ∧
    lookup c (LoadInputMappingFromBytes (InputMapping.ToJSON (LoadInputMappingFromBytes w))).JoystickHatMap
      = lookup c (LoadInputMappingFromBytes w).JoystickHatMap := by
  have h2 : LoadInputMappingFromBytes (InputMapping.ToJSON (LoadInputMappingFromBytes w))
      = LoadInputMappingFromBytes w := by
    simp only [LoadInputMappingFromBytes, InputMapping.ToJSON, InputMapping.mk.injEq]
    exact ⟨roundTripField wrap32 wrap32_idem _, roundTripField wrap32 wrap32_idem _,
      roundTripField wrap8 wrap8_idem _, roundTripField wrap8 wrap8_idem _,
      roundTripField wrap8 wrap8_idem _, roundTripField wrap8 wrap8_idem _⟩
  rw [h2]
  exact ⟨rfl, rfl, rfl, rfl, rfl, rfl⟩

/-! ## Queue and state-preservation lemmas -/

theorem checkChords_eventQueue (ip : Processor) (now : Int) :
    (ip.checkChords now).eventQueue = ip.eventQueue := rfl

theorem checkSequences_eventQueue (ip : Processor) (now : Int) :
    (ip.checkSequences now).eventQueue = ip.eventQueue := rfl

theorem checkChordReleases_eventQueue (ip : Processor) :
    ip.checkChordReleases.eventQueue = ip.eventQueue := rfl

theorem addToSequenceBuffer_eventQueue (ip : Processor) (b : VirtualButton) (t : Int) :
    (ip.addToSequenceBuffer b t).eventQueue = ip.eventQueue := by
  unfold Processor.addToSequenceBuffer
  by_cases h : (ip.sequenceBuffer ++ [(⟨b, t⟩ : SequenceEntry)]).length > 20 <;> simp [h]

theorem updateButtonState_eventQueue (ip : Processor) (b : VirtualButton)
    (p : Bool) (now : Int) :
    (ip.updateButtonState b p now).eventQueue = ip.eventQueue := by
  unfold Processor.updateButtonState
  cases p
  · simp [checkChordReleases_eventQueue]
  · simp [checkSequences_eventQueue, checkChords_eventQueue, addToSequenceBuffer_eventQueue]

/-- Popping the head of a non-empty internal queue, common to both claims
about queued events. -/
theorem processSDLEvent_queue_pop (ip : Processor) (event : SDLEvent) (now : Int)
    (evt : Event) (rest : List Event) (hq : ip.eventQueue = evt :: rest) :
    ip.ProcessSDLEvent event now = ({ ip with eventQueue := rest }, some evt) := by
  unfold Processor.ProcessSDLEvent
  split
  · rename_i e r he
    rw [hq] at he
    cases he
    rfl
  · rename_i he
    rw [hq] at he
    cases he

/-- C5: whenever the internal event queue is non-empty, ProcessSDLEvent
returns the oldest queued event and only removes it from the queue; the raw
event passed in is ignored entirely: no normalizer or recognizer state
changes and no event of its own is produced. -/
theorem queuedEvent_priority (ip : Processor) (event : SDLEvent) (now : Int)
    (evt : Event) (rest : List Event) (hq : ip.eventQueue = evt :: rest) :
    ip.ProcessSDLEvent event now = ({ ip with eventQueue := rest }, some evt) :=
  processSDLEvent_queue_pop ip event now evt rest hq

/-- Witness for C5: a processor with two queued events returns the first
and keeps the second, regardless of the raw event passed in. -/
theorem queuedEvent_priority_witness :
    ({ baseProcessor emptyMapping with
        eventQueue := [⟨1, true, Source.hatSwitch, 2⟩, ⟨2, false, Source.hatSwitch, 4⟩] }
      : Processor).ProcessSDLEvent (SDLEvent.keyboard 5 true) 7
    = ({ baseProcessor emptyMapping with
          eventQueue := [⟨2, false, Source.hatSwitch, 4⟩] }, some ⟨1, true, Source.hatSwitch, 2⟩) :=
  queuedEvent_priority _ (SDLEvent.keyboard 5 true) 7 ⟨1, true, Source.hatSwitch, 2⟩
    [⟨2, false, Source.hatSwitch, 4⟩] rfl

/-! ## C1: hat direction change -/

/-- C1: when the previous hat direction is non-centered and mapped and the
new value is a different non-centered mapped direction, ProcessSDLEvent
returns the release for the previous direction on the current call and
queues the press for the new direction as the only queued event, so that
the next call (whatever raw event it carries) delivers exactly that press:
release before press, never reversed. -/
theorem hatDirectionChange_releaseThenPress (ip : Processor) (hat value now : Int)
    (b1 b2 : VirtualButton)
    (hq : ip.eventQueue = [])
    (hprev : lookupD hat ip.hatStates ≠ 0)
    (hdiff : lookupD hat ip.hatStates ≠ value)
    (hval : value ≠ 0)
    (hm1 : lookup (lookupD hat ip.hatStates) ip.mapping.JoystickHatMap = some b1)
    (hm2 : lookup value ip.mapping.JoystickHatMap = some b2) :
    (ip.ProcessSDLEvent (SDLEvent.joyHat hat value) now).2
      = some ⟨b1, false, Source.hatSwitch, lookupD hat ip.hatStates⟩ ∧
    (ip.ProcessSDLEvent (SDLEvent.joyHat hat value) now).1.eventQueue
      = [⟨b2, true, Source.hatSwitch, value⟩] ∧
    ∀ (event2 : SDLEvent) (now2 : Int),
      ((ip.ProcessSDLEvent (SDLEvent.joyHat hat value) now).1.ProcessSDLEvent event2 now2).2
        = some ⟨b2, true, Source.hatSwitch, value⟩ ∧
      ((ip.ProcessSDLEvent (SDLEvent.joyHat hat value) now).1.ProcessSDLEvent event2 now2).1.eventQueue
        = [] := by
  have hprev2 : ¬ lookupD hat ip.hatStates = 0 := hprev
  have hmain : ip.ProcessSDLEvent (SDLEvent.joyHat hat value) now
      = (let ipA : Processor := { ip with hatStates := upsert hat value ip.hatStates }
         let ipB := ipA.updateButtonState b2 true now
         let ipC : Processor :=
           { ipB with eventQueue := ipB.eventQueue ++ [⟨b2, true, Source.hatSwitch, value⟩] }
         (ipC.updateButtonState b1 false now,
          some ⟨b1, false, Source.hatSwitch, lookupD hat ip.hatStates⟩)) := by
    unfold Processor.ProcessSDLEvent
    rw [hq]
    unfold Processor.processRaw Processor.processJoyHat Processor.createEvent
    simp [hprev2, hdiff, hval, hm1, hm2, hq]
  rw [hmain]
  simp only []
  have hqB : (({ ip with hatStates := upsert hat value ip.hatStates } : Processor).updateButtonState
      b2 true now).eventQueue = [] := by
    rw [updateButtonState_eventQueue]
    exact hq
  refine ⟨trivial, ?_, ?_⟩
  · rw [updateButtonState_eventQueue]
    simp [hqB]
  · intro event2 now2
    rw [processSDLEvent_queue_pop _ event2 now2 ⟨b2, true, Source.hatSwitch, value⟩ []
      (by rw [updateButtonState_eventQueue]; simp [hqB])]
    exact ⟨rfl, rfl⟩

/-- Witness for C1: hat 0 moves from up (1, mapped to button 10) straight
to right (2, mapped to button 11): the current call returns the release of
10 and the next call returns the press of 11. -/
theorem hatDirectionChange_releaseThenPress_witness :
    (({ baseProcessor testMapping with hatStates := [(0, 1)] } : Processor).ProcessSDLEvent
        (SDLEvent.joyHat 0 2) 50).2 = some ⟨10, false, Source.hatSwitch, 1⟩ ∧
    ((({ baseProcessor testMapping with hatStates := [(0, 1)] } : Processor).ProcessSDLEvent
        (SDLEvent.joyHat 0 2) 50).1.ProcessSDLEvent (SDLEvent.joyHat 0 0) 60).2
      = some ⟨11, true, Source.hatSwitch, 2⟩ := by
  have h := hatDirectionChange_releaseThenPress
    ({ baseProcessor testMapping with hatStates := [(0, 1)] }) 0 2 50 10 11
    rfl (by decide) (by decide) (by decide) (by decide) (by decide)
  exact ⟨h.1, (h.2.2 (SDLEvent.joyHat 0 0) 60).1⟩

/-! ## C6: axis threshold crossings -/

/-- The shared axis behaviour, for either Source: crossing out of center
presses the appropriate button, returning to center releases it, and an
unchanged direction produces nothing and leaves the state untouched. -/
theorem processAxisEvent_spec (ip : Processor) (axis value now : Int) (src : Source)
    (cfg : JoystickAxisMapping)
    (hq : ip.eventQueue = [])
    (hmap : lookup axis ip.mapping.JoystickAxisMap = some cfg)
    (hthr : 0 ≤ cfg.Threshold) :
    (lookupD axis ip.axisStates = 0 → cfg.Threshold < value →
      (ip.processAxisEvent axis value src now).2.map (fun e => (e.Button, e.Pressed))
          = some (cfg.PositiveButton, true)
        ∧ (ip.processAxisEvent axis value src now).1.eventQueue = []) ∧
    (lookupD axis ip.axisStates = 1 → -cfg.Threshold ≤ value → value ≤ cfg.Threshold →
      (ip.processAxisEvent axis value src now).2.map (fun e => (e.Button, e.Pressed))
          = some (cfg.PositiveButton, false)
        ∧ (ip.processAxisEvent axis value src now).1.eventQueue = []) ∧
    (lookupD axis ip.axisStates = 0 → value < -cfg.Threshold →
      (ip.processAxisEvent axis value src now).2.map (fun e => (e.Button, e.Pressed))
          = some (cfg.NegativeButton, true)
        ∧ (ip.processAxisEvent axis value src now).1.eventQueue = []) ∧
    (lookupD axis ip.axisStates = -1 → -cfg.Threshold ≤ value → value ≤ cfg.Threshold →
      (ip.processAxisEvent axis value src now).2.map (fun e => (e.Button, e.Pressed))
          = some (cfg.NegativeButton, false)
        ∧ (ip.processAxisEvent axis value src now).1.eventQueue = []) ∧
    ((if cfg.Threshold < value then (1 : Int) else if value < -cfg.Threshold then -1 else 0)
        = lookupD axis ip.axisStates →
      ip.processAxisEvent axis value src now = (ip, none)) := by
  have hneg : int16Neg cfg.Threshold = -cfg.Threshold := by
    unfold int16Neg
    rw [if_neg (by omega)]
  refine ⟨?_, ?_, ?_, ?_, ?_⟩
  · intro h0 hv
    constructor
    · simp [Processor.processAxisEvent, Processor.createEvent, hmap, h0, hv]
    · simp [Processor.processAxisEvent, Processor.createEvent, hmap, h0, hv,
        updateButtonState_eventQueue, hq]
  · intro h1 hv1 hv2
    have hnv : ¬ cfg.Threshold < value := by omega
    have hnn : ¬ value < -cfg.Threshold := by omega
    constructor
    · simp [Processor.processAxisEvent, Processor.createEvent, hmap, h1, hneg, hnv, hnn]
    · simp [Processor.processAxisEvent, Processor.createEvent, hmap, h1, hneg, hnv, hnn,
        updateButtonState_eventQueue, hq]
  · intro h0 hv
    have hnv : ¬ cfg.Threshold < value := by omega
    constructor
    · simp [Processor.processAxisEvent, Processor.createEvent, hmap, h0, hneg, hnv, hv]
    · simp [Processor.processAxisEvent, Processor.createEvent, hmap, h0, hneg, hnv, hv,
        updateButtonState_eventQueue, hq]
  · intro h1 hv1 hv2
    have hnv : ¬ cfg.Threshold < value := by omega
    have hnn : ¬ value < -cfg.Threshold := by omega
    constructor
    · simp [Processor.processAxisEvent, Processor.createEvent, hmap, h1, hneg, hnv, hnn]
    · simp [Processor.processAxisEvent, Processor.createEvent, hmap, h1, hneg, hnv, hnn,
        updateButtonState_eventQueue, hq]
  · intro hsame
    simp [Processor.processAxisEvent, hmap, hneg, hsame]

/-- C6: for a mapped axis (nonnegative threshold, empty internal queue), a
sample moving the axis state from centered to strictly above the threshold
produces exactly one press of PositiveButton (returned now, nothing
queued); a sample moving it from the positive state back to within
[-Threshold, Threshold] produces exactly one release of PositiveButton;
symmetrically for the negative side; and a sample leaving the
negative/centered/positive classification unchanged produces no event and
no state change.  Both axis event kinds (game controller and raw joystick)
behave this way. -/
theorem axisThreshold_events (ip : Processor) (axis value now : Int)
    (cfg : JoystickAxisMapping) (ev : SDLEvent)
    (hq : ip.eventQueue = [])
    (hmap : lookup axis ip.mapping.JoystickAxisMap = some cfg)
    (hthr : 0 ≤ cfg.Threshold)
    (hev : ev = SDLEvent.controllerAxis axis value ∨ ev = SDLEvent.joyAxis axis value) :
    (lookupD axis ip.axisStates = 0 → cfg.Threshold < value →
      (ip.ProcessSDLEvent ev now).2.map (fun e => (e.Button, e.Pressed))
          = some (cfg.PositiveButton, true)
        ∧ (ip.ProcessSDLEvent ev now).1.eventQueue = []) ∧
    (lookupD axis ip.axisStates = 1 → -cfg.Threshold ≤ value → value ≤ cfg.Threshold →
      (ip.ProcessSDLEvent ev now).2.map (fun e => (e.Button, e.Pressed))
          = some (cfg.PositiveButton, false)
        ∧ (ip.ProcessSDLEvent ev now).1.eventQueue = []) ∧
    (lookupD axis ip.axisStates = 0 → value < -cfg.Threshold →
      (ip.ProcessSDLEvent ev now).2.map (fun e => (e.Button, e.Pressed))
          = some (cfg.NegativeButton, true)
        ∧ (ip.ProcessSDLEvent ev now).1.eventQueue = []) ∧
    (lookupD axis ip.axisStates = -1 → -cfg.Threshold ≤ value → value ≤ cfg.Threshold →
      (ip.ProcessSDLEvent ev now).2.map (fun e => (e.Button, e.Pressed))
          = some (cfg.NegativeButton, false)
        ∧ (ip.ProcessSDLEvent ev now).1.eventQueue = []) ∧
    ((if cfg.Threshold < value then (1 : Int) else if value < -cfg.Threshold then -1 else 0)
        = lookupD axis ip.axisStates →
      ip.ProcessSDLEvent ev now = (ip, none)) := by
  rcases hev with rfl | rfl
  · have hpe : ip.ProcessSDLEvent (SDLEvent.controllerAxis axis value) now
        = ip.processAxisEvent axis value Source.controller now := by
      unfold Processor.ProcessSDLEvent
      rw [hq]
      simp [Processor.processRaw]
    rw [hpe]
    exact processAxisEvent_spec ip axis value now Source.controller cfg hq hmap hthr
  · have hpe : ip.ProcessSDLEvent (SDLEvent.joyAxis axis value) now
        = ip.processAxisEvent axis value Source.joystick now := by
      unfold Processor.ProcessSDLEvent
      rw [hq]
      simp [Processor.processRaw]
    rw [hpe]
    exact processAxisEvent_spec ip axis value now Source.joystick cfg hq hmap hthr

/-- Witness for C6: on the concrete test mapping (axis 0, threshold 100,
positive button 20), a fresh processor crossing to value 150 presses
button 20 and queues nothing. -/
theorem axisThreshold_events_witness :
    ((baseProcessor testMapping).ProcessSDLEvent (SDLEvent.controllerAxis 0 150) 40).2.map
        (fun e => (e.Button, e.Pressed)) = some ((20 : Int), true)
    ∧ ((baseProcessor testMapping).ProcessSDLEvent (SDLEvent.controllerAxis 0 150) 40).1.eventQueue
        = [] :=
  (axisThreshold_events (baseProcessor testMapping) 0 150 40 ⟨20, 21, 100⟩
    (SDLEvent.controllerAxis 0 150) rfl (by decide) (by decide) (Or.inl rfl)).1 rfl (by decide)

/-! ## C8, C9: combo registration and unregistration -/

theorem removeFirstCombo_append_of_mem (id : String) (l l2 : List RegisteredCombo)
    (h : ∃ c ∈ l, c.ID = id) :
    removeFirstCombo id (l ++ l2) = removeFirstCombo id l ++ l2 := by
  induction l with
  | nil =>
    obtain ⟨c, hc, _⟩ := h
    cases hc
  | cons c rest ih =>
    by_cases hcid : c.ID = id
    · simp [removeFirstCombo, hcid]
    · have hrest : ∃ x ∈ rest, x.ID = id := by
        obtain ⟨x, hx, hxid⟩ := h
        rcases List.mem_cons.mp hx with rfl | hx2
        · exact absurd hxid hcid
        · exact ⟨x, hx2, hxid⟩
      simp [removeFirstCombo, hcid, ih hrest]

theorem removeFirstCombo_append_fresh (id : String) (l : List RegisteredCombo)
    (x : RegisteredCombo) (hx : x.ID = id) (h : ∀ c ∈ l, c.ID ≠ id) :
    removeFirstCombo id (l ++ [x]) = l := by
  induction l with
  | nil => simp [removeFirstCombo, hx]
  | cons c rest ih =>
    have hcid : c.ID ≠ id := h c (List.mem_cons_self c rest)
    simp [removeFirstCombo, hcid]
    exact ih (fun d hd => h d (List.mem_cons_of_mem c hd))

/-- C8: RegisterChord and RegisterSequence with fewer than 2 buttons
return an error and leave the registered combos unchanged; with 2 or more
buttons they succeed (no error), append exactly the new combo, and (when
its ID is fresh) UnregisterCombo with that ID removes it again, restoring
the processor exactly. -/
theorem register_validation (ip : Processor) (id : String)
    (buttons : List VirtualButton) (copts : ChordOptions) (sopts : SequenceOptions) :
    (buttons.length < 2 →
      ip.RegisterChord id buttons copts = (ip, some "chord requires at least 2 buttons") ∧
      ip.RegisterSequence id buttons sopts = (ip, some "sequence requires at least 2 buttons")) ∧
    (2 ≤ buttons.length →
      (ip.RegisterChord id buttons copts).2 = none ∧
      (ip.RegisterChord id buttons copts).1.registeredCombos
        = ip.registeredCombos ++
          [⟨id, buttons,
            ComboConfig.chord (if copts.Window = 0 then { copts with Window := 100000000 } else copts),
            false⟩] ∧
      (ip.RegisterSequence id buttons sopts).2 = none ∧
      (ip.RegisterSequence id buttons sopts).1.registeredCombos
        = ip.registeredCombos ++
          [⟨id, buttons,
            ComboConfig.seq (if sopts.Timeout = 0 then { sopts with Timeout := 500000000 } else sopts),
            false⟩] ∧
      ((∀ c ∈ ip.registeredCombos, c.ID ≠ id) →
        (ip.RegisterChord id buttons copts).1.UnregisterCombo id = ip ∧
        (ip.RegisterSequence id buttons sopts).1.UnregisterCombo id = ip)) := by
  constructor
  · intro hlt
    constructor
    · simp [Processor.RegisterChord, hlt]
    · simp [Processor.RegisterSequence, hlt]
  · intro hge
    have hlt : ¬ buttons.length < 2 := by omega
    refine ⟨by simp [Processor.RegisterChord, hlt], by simp [Processor.RegisterChord, hlt],
      by simp [Processor.RegisterSequence, hlt], by simp [Processor.RegisterSequence, hlt], ?_⟩
    intro hfresh
    constructor
    · unfold Processor.UnregisterCombo
      have hrm : removeFirstCombo id (ip.RegisterChord id buttons copts).1.registeredCombos
          = ip.registeredCombos := by
        have hcombos : (ip.RegisterChord id buttons copts).1.registeredCombos
            = ip.registeredCombos ++
              [⟨id, buttons,
                ComboConfig.chord (if copts.Window = 0 then { copts with Window := 100000000 } else copts),
                false⟩] := by simp [Processor.RegisterChord, hlt]
        rw [hcombos]
        exact removeFirstCombo_append_fresh id _ _ rfl hfresh
      have hrest : (ip.RegisterChord id buttons copts).1
          = { ip with registeredCombos := (ip.RegisterChord id buttons copts).1.registeredCombos } := by
        simp [Processor.RegisterChord, hlt]
      rw [hrest, hrm]
    · unfold Processor.UnregisterCombo
      have hrm : removeFirstCombo id (ip.RegisterSequence id buttons sopts).1.registeredCombos
          = ip.registeredCombos := by
        have hcombos : (ip.RegisterSequence id buttons sopts).1.registeredCombos
            = ip.registeredCombos ++
              [⟨id, buttons,
                ComboConfig.seq (if sopts.Timeout = 0 then { sopts with Timeout := 500000000 } else sopts),
                false⟩] := by simp [Processor.RegisterSequence, hlt]
        rw [hcombos]
        exact removeFirstCombo_append_fresh id _ _ rfl hfresh
      have hrest : (ip.RegisterSequence id buttons sopts).1
          = { ip with registeredCombos := (ip.RegisterSequence id buttons sopts).1.registeredCombos } := by
        simp [Processor.RegisterSequence, hlt]
      rw [hrest, hrm]

/-- Witness for C8: a 1-button chord is rejected leaving the processor
unchanged, and a 2-button chord on a fresh processor registers and can be
removed again by its ID. -/
theorem register_validation_witness :
    (baseProcessor emptyMapping).RegisterChord "combo1" [1] ⟨0, false, false⟩
      = (baseProcessor emptyMapping, some "chord requires at least 2 buttons") ∧
    ((baseProcessor emptyMapping).RegisterChord "combo1" [1, 2] ⟨0, false, false⟩).2 = none ∧
    ((baseProcessor emptyMapping).RegisterChord "combo1" [1, 2] ⟨0, false, false⟩).1.UnregisterCombo
      "combo1" = baseProcessor emptyMapping := by
  have h := register_validation (baseProcessor emptyMapping) "combo1" [1] ⟨0, false, false⟩
    ⟨0, false, false⟩
  have h2 := register_validation (baseProcessor emptyMapping) "combo1" [1, 2] ⟨0, false, false⟩
    ⟨0, false, false⟩
  refine ⟨(h.1 (by decide)).1, (h2.2 (by decide)).1, ?_⟩
  exact ((h2.2 (by decide)).2.2.2.2 (by intro c hc; simp [baseProcessor] at hc)).1

/-- C9: registering a chord or sequence whose ID duplicates an existing
registered ID succeeds (with 2 or more buttons) and appends a second combo
carrying the duplicate ID; UnregisterCombo with that ID then removes only
the first-registered combo bearing it, leaving the newly appended one
registered. -/
theorem register_duplicate_id (ip : Processor) (id : String)
    (buttons : List VirtualButton) (copts : ChordOptions) (sopts : SequenceOptions)
    (hge : 2 ≤ buttons.length)
    (hdup : ∃ c ∈ ip.registeredCombos, c.ID = id) :
    ((ip.RegisterChord id buttons copts).2 = none ∧
      (ip.RegisterChord id buttons copts).1.registeredCombos
        = ip.registeredCombos ++
          [⟨id, buttons,
            ComboConfig.chord (if copts.Window = 0 then { copts with Window := 100000000 } else copts),
            false⟩] ∧
      ((ip.RegisterChord id buttons copts).1.UnregisterCombo id).registeredCombos
        = removeFirstCombo id ip.registeredCombos ++
          [⟨id, buttons,
            ComboConfig.chord (if copts.Window = 0 then { copts with Window := 100000000 } else copts),
            false⟩]) ∧
    ((ip.RegisterSequence id buttons sopts).2 = none ∧
      ((ip.RegisterSequence id buttons sopts).1.UnregisterCombo id).registeredCombos
        = removeFirstCombo id ip.registeredCombos ++
          [⟨id, buttons,
            ComboConfig.seq (if sopts.Timeout = 0 then { sopts with Timeout := 500000000 } else sopts),
            false⟩]) := by
  have hlt : ¬ buttons.length < 2 := by omega
  constructor
  · refine ⟨by simp [Processor.RegisterChord, hlt], by simp [Processor.RegisterChord, hlt], ?_⟩
    unfold Processor.UnregisterCombo
    have hcombos : (ip.RegisterChord id buttons copts).1.registeredCombos
        = ip.registeredCombos ++
          [⟨id, buttons,
            ComboConfig.chord (if copts.Window = 0 then { copts with Window := 100000000 } else copts),
            false⟩] := by simp [Processor.RegisterChord, hlt]
    simp only [hcombos]
    exact removeFirstCombo_append_of_mem id _ _ hdup
  · refine ⟨by simp [Processor.RegisterSequence, hlt], ?_⟩
    unfold Processor.UnregisterCombo
    have hcombos : (ip.RegisterSequence id buttons sopts).1.registeredCombos
        = ip.registeredCombos ++
          [⟨id, buttons,
            ComboConfig.seq (if sopts.Timeout = 0 then { sopts with Timeout := 500000000 } else sopts),
            false⟩] := by simp [Processor.RegisterSequence, hlt]
    simp only [hcombos]
    exact removeFirstCombo_append_of_mem id _ _ hdup

/-- Witness for C9: with a combo of ID dup already registered, a second
chord under the same ID registers, and unregistering dup removes only the
first, leaving the second. -/
theorem register_duplicate_id_witness :
    (({ baseProcessor emptyMapping with
         registeredCombos := [⟨"dup", [5, 6], ComboConfig.chord ⟨77, false, false⟩, false⟩] }
       : Processor).RegisterChord "dup" [1, 2] ⟨88, false, false⟩).2 = none ∧
    ((({ baseProcessor emptyMapping with
          registeredCombos := [⟨"dup", [5, 6], ComboConfig.chord ⟨77, false, false⟩, false⟩] }
        : Processor).RegisterChord "dup" [1, 2] ⟨88, false, false⟩).1.UnregisterCombo
      "dup").registeredCombos
      = [⟨"dup", [1, 2], ComboConfig.chord ⟨88, false, false⟩, false⟩] := by
  have h := register_duplicate_id
    ({ baseProcessor emptyMapping with
       registeredCombos := [⟨"dup", [5, 6], ComboConfig.chord ⟨77, false, false⟩, false⟩] })
    "dup" [1, 2] ⟨88, false, false⟩ ⟨0, false, false⟩ (by decide)
    ⟨⟨"dup", [5, 6], ComboConfig.chord ⟨77, false, false⟩, false⟩, by simp, rfl⟩
  refine ⟨h.1.1, ?_⟩
  rw [h.1.2.2]
  decide

/-! ## Sequence matching lemmas -/

theorem seqWindowMatch_some_iff (t : Int) (p : SequenceEntry) (es : List SequenceEntry)
    (bs : List VirtualButton) (hlen : es.length = bs.length) :
    (seqWindowMatch t (some p) es bs = true ↔
      es.map SequenceEntry.Button = bs ∧ adjacentWithin t (p :: es) = true) := by
  induction es generalizing bs p with
  | nil =>
    cases bs with
    | nil => simp [seqWindowMatch, adjacentWithin]
    | cons b bs2 => simp at hlen
  | cons e es2 ih =>
    cases bs with
    | nil => simp at hlen
    | cons b bs2 =>
      have hlen2 : es2.length = bs2.length := by simpa using hlen
      by_cases hb : e.Button = b
      · by_cases hgap : t < e.Time - p.Time
        · have hnle : ¬ (e.Time - p.Time ≤ t) := by omega
          simp [seqWindowMatch, hb, hgap, adjacentWithin, hnle]
        · have hle : e.Time - p.Time ≤ t := by omega
          simp only [seqWindowMatch, hb, if_pos, if_neg hgap, ih e bs2 hlen2]
          simp [adjacentWithin, hle, hb]
      · simp [seqWindowMatch, hb, adjacentWithin]

theorem seqWindowMatch_none_iff (t : Int) (es : List SequenceEntry)
    (bs : List VirtualButton) (hlen : es.length = bs.length) :
    (seqWindowMatch t none es bs = true ↔
      es.map SequenceEntry.Button = bs ∧ adjacentWithin t es = true) := by
  cases es with
  | nil =>
    cases bs with
    | nil => simp [seqWindowMatch, adjacentWithin]
    | cons b bs2 => simp at hlen
  | cons e es2 =>
    cases bs with
    | nil => simp at hlen
    | cons b bs2 =>
      have hlen2 : es2.length = bs2.length := by simpa using hlen
      by_cases hb : e.Button = b
      · simp only [seqWindowMatch, hb, if_pos, seqWindowMatch_some_iff t e es2 bs2 hlen2]
        simp [hb]
      · simp [seqWindowMatch, hb]

/-- matchesSequence with its let binding unfolded. -/
theorem matchesSequence_eq (buffer : List SequenceEntry) (buttons : List VirtualButton)
    (opts : SequenceOptions) (now : Int) :
    matchesSequence buffer buttons opts now
      = if buffer.length < buttons.length then false
        else if seqWindowMatch opts.Timeout none
            (buffer.drop (buffer.length - buttons.length)) buttons then
          (if opts.Strict ∧ 0 < buffer.length - buttons.length then
            !((buffer.take (buffer.length - buttons.length)).any
              (fun e => now - e.Time < opts.Timeout * (buttons.length : Int)))
          else true)
        else false := rfl

/-- The non-strict matchesSequence is exactly the claim condition: enough
entries, positional button match on the last N, and bounded adjacent gaps. -/
theorem matchesSequence_iff (buffer : List SequenceEntry) (buttons : List VirtualButton)
    (opts : SequenceOptions) (now : Int) (hstrict : opts.Strict = false) :
    (matchesSequence buffer buttons opts now = true ↔
      (buttons.length ≤ buffer.length ∧
        (buffer.drop (buffer.length - buttons.length)).map SequenceEntry.Button = buttons ∧
        adjacentWithin opts.Timeout (buffer.drop (buffer.length - buttons.length)) = true)) := by
  rw [matchesSequence_eq]
  by_cases hlen : buffer.length < buttons.length
  · rw [if_pos hlen]
    simp only [Bool.false_eq_true, false_iff]
    intro h
    exact absurd h.1 (by omega)
  · rw [if_neg hlen]
    have hge : buttons.length ≤ buffer.length := by omega
    have hdroplen : (buffer.drop (buffer.length - buttons.length)).length = buttons.length := by
      rw [List.length_drop]
      omega
    by_cases hw : seqWindowMatch opts.Timeout none
        (buffer.drop (buffer.length - buttons.length)) buttons = true
    · rw [if_pos hw,
        if_neg (show ¬ (opts.Strict = true ∧ 0 < buffer.length - buttons.length) from by
          simp [hstrict])]
      rw [seqWindowMatch_none_iff _ _ _ hdroplen] at hw
      simp [hw.1, hw.2, hge]
    · rw [if_neg hw]
      simp only [Bool.false_eq_true, false_iff]
      intro hc
      rw [seqWindowMatch_none_iff _ _ _ hdroplen] at hw
      exact hw ⟨hc.2.1, hc.2.2⟩

/-- Running the sequence pass over an empty buffer never restores a
non-empty buffer. -/
theorem checkSequencesList_buffer_nil (now : Int) (l : List RegisteredCombo) :
    (checkSequencesList now l []).buffer = [] := by
  induction l with
  | nil => rfl
  | cons c rest ih =>
    cases hcfg : c.config with
    | chord opts => simp [checkSequencesList, hcfg, ih]
    | seq opts =>
      by_cases hm : matchesSequence [] c.Buttons opts now = true
      · simp [checkSequencesList, hcfg, hm, ih]
      · simp only [Bool.not_eq_true] at hm
        simp [checkSequencesList, hcfg, hm, ih]

/-- Sequences with at least one button never match an empty buffer, so a
pass started on an empty buffer produces nothing at all. -/
theorem checkSequencesList_nil (now : Int) (l : List RegisteredCombo)
    (h : ∀ c ∈ l, isSeqCombo c = true → c.Buttons ≠ []) :
    checkSequencesList now l [] = ⟨[], [], []⟩ := by
  induction l with
  | nil => rfl
  | cons c rest ih =>
    have hrest := ih (fun d hd => h d (List.mem_cons_of_mem c hd))
    cases hcfg : c.config with
    | chord opts => simp [checkSequencesList, hcfg, hrest]
    | seq opts =>
      have hne : c.Buttons ≠ [] := h c (List.mem_cons_self c rest) (by simp [isSeqCombo, hcfg])
      have hm : matchesSequence [] c.Buttons opts now = false := by
        unfold matchesSequence
        rw [if_pos]
        simp only [List.length_nil]
        cases hb : c.Buttons with
        | nil => exact absurd hb hne
        | cons x xs => simp
      simp [checkSequencesList, hcfg, hm, hrest]

/-- A prefix of non-sequence combos is transparent to the sequence pass. -/
theorem checkSequencesList_chords_prefix (now : Int) (pre rest : List RegisteredCombo)
    (buf : List SequenceEntry) (hpre : ∀ c ∈ pre, ∀ o, c.config ≠ ComboConfig.seq o) :
    checkSequencesList now (pre ++ rest) buf = checkSequencesList now rest buf := by
  induction pre with
  | nil => rfl
  | cons c pre2 ih =>
    cases hcfg : c.config with
    | chord opts =>
      simp only [List.cons_append, checkSequencesList, hcfg]
      exact ih (fun d hd => hpre d (List.mem_cons_of_mem c hd))
    | seq opts => exact absurd hcfg (hpre c (List.mem_cons_self c pre2) opts)

/-- The sequence pass produces the event of the first matching sequence
(if any) and nothing else, and clears the buffer exactly when one matched. -/
theorem checkSequencesList_events_find (now : Int) (l : List RegisteredCombo)
    (buf : List SequenceEntry)
    (h : ∀ c ∈ l, isSeqCombo c = true → c.Buttons ≠ []) :
    (checkSequencesList now l buf).events
      = (match l.find? (seqMatches now buf) with
         | some c => [⟨c.ID, ComboType.seqKind, c.Buttons, true⟩]
         | none => [])
    ∧ (checkSequencesList now l buf).buffer
      = (if (l.find? (seqMatches now buf)).isSome then [] else buf) := by
  induction l generalizing buf with
  | nil => simp [checkSequencesList]
  | cons c rest ih =>
    have hr : ∀ d ∈ rest, isSeqCombo d = true → d.Buttons ≠ [] :=
      fun d hd => h d (List.mem_cons_of_mem c hd)
    cases hcfg : c.config with
    | chord opts =>
      have hsm : ¬ seqMatches now buf c = true := by simp [seqMatches, hcfg]
      rw [List.find?_cons_of_neg _ hsm]
      simpa [checkSequencesList, hcfg] using ih buf hr
    | seq opts =>
      by_cases hm : matchesSequence buf c.Buttons opts now = true
      · have hsm : seqMatches now buf c = true := by simp [seqMatches, hcfg, hm]
        rw [List.find?_cons_of_pos _ hsm]
        have hnil := checkSequencesList_nil now rest hr
        simp [checkSequencesList, hcfg, hm, hnil]
      · have hsm : ¬ seqMatches now buf c = true := by simp [seqMatches, hcfg, hm]
        rw [List.find?_cons_of_neg _ hsm]
        have hm2 : matchesSequence buf c.Buttons opts now = false := by
          simpa using hm
        simpa [checkSequencesList, hcfg, hm2] using ih buf hr

/-- C10: on any single sequence pass at most one sequence combo triggers;
the one that fires is the earliest-registered matching sequence (every
registered sequence having at least one button, as registration
guarantees), and the shared buffer is cleared exactly when one fired, so
later-registered sequences see an empty buffer and cannot match. -/
theorem sequences_at_most_one_trigger (ip : Processor) (now : Int)
    (h : ∀ c ∈ ip.registeredCombos, isSeqCombo c = true → c.Buttons ≠ []) :
    (ip.checkSequences now).comboEventQueue
      = ip.comboEventQueue
        ++ (checkSequencesList now ip.registeredCombos ip.sequenceBuffer).events ∧
    (checkSequencesList now ip.registeredCombos ip.sequenceBuffer).events
      = (match ip.registeredCombos.find? (seqMatches now ip.sequenceBuffer) with
         | some c => [⟨c.ID, ComboType.seqKind, c.Buttons, true⟩]
         | none => []) ∧
    (checkSequencesList now ip.registeredCombos ip.sequenceBuffer).events.length ≤ 1 ∧
    (ip.checkSequences now).sequenceBuffer
      = (if (ip.registeredCombos.find? (seqMatches now ip.sequenceBuffer)).isSome then []
         else ip.sequenceBuffer) := by
  obtain ⟨he, hb⟩ := checkSequencesList_events_find now ip.registeredCombos ip.sequenceBuffer h
  refine ⟨rfl, he, ?_, hb⟩
  rw [he]
  cases hf : ip.registeredCombos.find? (seqMatches now ip.sequenceBuffer) <;> simp

/-- Witness for C10: two identical sequences both match the buffer, yet
only the earliest-registered one fires. -/
theorem sequences_at_most_one_trigger_witness :
    (({ baseProcessor emptyMapping with
         registeredCombos :=
           [⟨"s1", [1, 2], ComboConfig.seq ⟨500, false, false⟩, false⟩,
            ⟨"s2", [1, 2], ComboConfig.seq ⟨500, false, false⟩, false⟩],
         sequenceBuffer := [⟨1, 0⟩, ⟨2, 100⟩] } : Processor).checkSequences 100).comboEventQueue
      = [⟨"s1", ComboType.seqKind, [1, 2], true⟩] := by
  have h := sequences_at_most_one_trigger
    ({ baseProcessor emptyMapping with
       registeredCombos :=
         [⟨"s1", [1, 2], ComboConfig.seq ⟨500, false, false⟩, false⟩,
          ⟨"s2", [1, 2], ComboConfig.seq ⟨500, false, false⟩, false⟩],
       sequenceBuffer := [⟨1, 0⟩, ⟨2, 100⟩] }) 100 (by decide)
  rw [h.1, h.2.1]
  rfl

/-- C3: a registered non-strict sequence (preceded only by non-sequence
combos, so it sees the shared buffer unmodified) triggers exactly when the
last N buffer entries match its buttons positionally with every adjacent
gap within Timeout; on a match exactly one triggered ComboEvent for it is
enqueued, its OnTrigger callback (when present) is invoked, and the whole
sequence buffer is cleared, so the same presses can trigger it again
independently. -/
theorem sequence_trigger_spec (ip : Processor) (now : Int)
    (pre post : List RegisteredCombo) (combo : RegisteredCombo) (opts : SequenceOptions)
    (hreg : ip.registeredCombos = pre ++ combo :: post)
    (hconf : combo.config = ComboConfig.seq opts)
    (hstrict : opts.Strict = false)
    (hpre : ∀ c ∈ pre, ∀ o, c.config ≠ ComboConfig.seq o) :
    (matchesSequence ip.sequenceBuffer combo.Buttons opts now = true ↔
      (combo.Buttons.length ≤ ip.sequenceBuffer.length ∧
        (ip.sequenceBuffer.drop (ip.sequenceBuffer.length - combo.Buttons.length)).map
            SequenceEntry.Button = combo.Buttons ∧
        adjacentWithin opts.Timeout
          (ip.sequenceBuffer.drop (ip.sequenceBuffer.length - combo.Buttons.length)) = true)) ∧
    (∃ evsPost clsPost,
      (ip.checkSequences now).comboEventQueue
        = ip.comboEventQueue
          ++ (if matchesSequence ip.sequenceBuffer combo.Buttons opts now = true
              then [⟨combo.ID, ComboType.seqKind, combo.Buttons, true⟩] else [])
          ++ evsPost ∧
      (ip.checkSequences now).calls
        = ip.calls
          ++ (if matchesSequence ip.sequenceBuffer combo.Buttons opts now = true
                  ∧ opts.hasOnTrigger = true
              then [(combo.ID, true)] else [])
          ++ clsPost) ∧
    (matchesSequence ip.sequenceBuffer combo.Buttons opts now = true →
      (ip.checkSequences now).sequenceBuffer = []) := by
  have hpass : checkSequencesList now ip.registeredCombos ip.sequenceBuffer
      = checkSequencesList now (combo :: post) ip.sequenceBuffer := by
    rw [hreg]
    exact checkSequencesList_chords_prefix now pre _ _ hpre
  refine ⟨matchesSequence_iff _ _ _ _ hstrict, ?_, ?_⟩
  · by_cases hm : matchesSequence ip.sequenceBuffer combo.Buttons opts now = true
    · refine ⟨(checkSequencesList now post []).events,
        (checkSequencesList now post []).calls, ?_, ?_⟩
      · show ip.comboEventQueue
            ++ (checkSequencesList now ip.registeredCombos ip.sequenceBuffer).events = _
        rw [hpass]
        simp [checkSequencesList, hconf, hm]
      · show ip.calls
            ++ (checkSequencesList now ip.registeredCombos ip.sequenceBuffer).calls = _
        rw [hpass]
        by_cases hcb : opts.hasOnTrigger = true
        · simp [checkSequencesList, hconf, hm, hcb]
        · simp [checkSequencesList, hconf, hm, hcb]
    · have hm2 : matchesSequence ip.sequenceBuffer combo.Buttons opts now = false := by
        simpa using hm
      refine ⟨(checkSequencesList now post ip.sequenceBuffer).events,
        (checkSequencesList now post ip.sequenceBuffer).calls, ?_, ?_⟩
      · show ip.comboEventQueue
            ++ (checkSequencesList now ip.registeredCombos ip.sequenceBuffer).events = _
        rw [hpass]
        simp [checkSequencesList, hconf, hm2]
      · show ip.calls
            ++ (checkSequencesList now ip.registeredCombos ip.sequenceBuffer).calls = _
        rw [hpass]
        simp [checkSequencesList, hconf, hm2, hm]
  · intro hm
    show (checkSequencesList now ip.registeredCombos ip.sequenceBuffer).buffer = []
    rw [hpass]
    simp [checkSequencesList, hconf, hm, checkSequencesList_buffer_nil]

/-- Witness for C3: the Up,Up,Down,Down example (buttons 1,1,2,2) with
Timeout 500 and entries at 0,100,200,300 matches, and the pass clears the
buffer. -/
theorem sequence_trigger_spec_witness :
    matchesSequence [⟨1, 0⟩, ⟨1, 100⟩, ⟨2, 200⟩, ⟨2, 300⟩] [1, 1, 2, 2]
        ⟨500, false, true⟩ 300 = true ∧
    (({ baseProcessor emptyMapping with
         registeredCombos := [⟨"konami", [1, 1, 2, 2], ComboConfig.seq ⟨500, false, true⟩, false⟩],
         sequenceBuffer := [⟨1, 0⟩, ⟨1, 100⟩, ⟨2, 200⟩, ⟨2, 300⟩] } : Processor).checkSequences
        300).sequenceBuffer = [] := by
  have h := sequence_trigger_spec
    ({ baseProcessor emptyMapping with
       registeredCombos := [⟨"konami", [1, 1, 2, 2], ComboConfig.seq ⟨500, false, true⟩, false⟩],
       sequenceBuffer := [⟨1, 0⟩, ⟨1, 100⟩, ⟨2, 200⟩, ⟨2, 300⟩] }) 300 []
    [] ⟨"konami", [1, 1, 2, 2], ComboConfig.seq ⟨500, false, true⟩, false⟩
    ⟨500, false, true⟩ rfl rfl rfl (by intro c hc; simp at hc)
  have hm : matchesSequence [⟨1, 0⟩, ⟨1, 100⟩, ⟨2, 200⟩, ⟨2, 300⟩] [1, 1, 2, 2]
      ⟨500, false, true⟩ 300 = true := h.1.mpr (by decide)
  exact ⟨hm, h.2.2 hm⟩

/-! ## C4: the strict-mode stray-press window -/

/-- Counterexample to C4 as stated: buttons 1,2 with Timeout 500 (so
Timeout * len = 1000), buffer holding a stray press of button 9 at time 0,
then the matching presses at 900 and 1050, now = 1050.  The stray press
occurred 900 < 1000 before the first matching entry, yet the strict
sequence still matches and checkSequences triggers it, because the code
measures strays against now (1050 - 0 = 1050, not less than 1000), not
against the first matching entry. -/
theorem strictSequence_claim_counterexample :
    ((900 : Int) - 0 < 500 * 2) ∧
    matchesSequence [⟨9, 0⟩, ⟨1, 900⟩, ⟨2, 1050⟩] [1, 2] ⟨500, true, false⟩ 1050 = true ∧
    (({ baseProcessor emptyMapping with
         registeredCombos := [⟨"strict", [1, 2], ComboConfig.seq ⟨500, true, false⟩, false⟩],
         sequenceBuffer := [⟨9, 0⟩, ⟨1, 900⟩, ⟨2, 1050⟩] } : Processor).checkSequences
        1050).comboEventQueue
      = [⟨"strict", ComboType.seqKind, [1, 2], true⟩] := by
  refine ⟨by decide, by decide, ?_⟩
  rfl

/-- C4 as amended: a registered sequence with Strict=true does not trigger
if any other buffered press (one lying before the matched window) occurred
within Timeout * len(buttons) of the current press time now; the stray
window is anchored at now, not at the first matching entry. -/
theorem strictSequence_blocks_recent_strays (ip : Processor) (now : Int)
    (combo : RegisteredCombo) (opts : SequenceOptions) (e : SequenceEntry)
    (hreg : ip.registeredCombos = [combo])
    (hconf : combo.config = ComboConfig.seq opts)
    (hstrict : opts.Strict = true)
    (he : e ∈ ip.sequenceBuffer.take (ip.sequenceBuffer.length - combo.Buttons.length))
    (ht : now - e.Time < opts.Timeout * (combo.Buttons.length : Int)) :
    matchesSequence ip.sequenceBuffer combo.Buttons opts now = false ∧
    ip.checkSequences now = ip := by
  have hm : matchesSequence ip.sequenceBuffer combo.Buttons opts now = false := by
    rw [matchesSequence_eq]
    by_cases hlen : ip.sequenceBuffer.length < combo.Buttons.length
    · rw [if_pos hlen]
    · rw [if_neg hlen]
      by_cases hw : seqWindowMatch opts.Timeout none
          (ip.sequenceBuffer.drop (ip.sequenceBuffer.length - combo.Buttons.length))
          combo.Buttons = true
      · rw [if_pos hw]
        have hpos : 0 < ip.sequenceBuffer.length - combo.Buttons.length := by
          by_contra hz
          have : ip.sequenceBuffer.length - combo.Buttons.length = 0 := by omega
          rw [this] at he
          simp at he
        rw [if_pos ⟨hstrict, hpos⟩]
        have hany : (ip.sequenceBuffer.take
            (ip.sequenceBuffer.length - combo.Buttons.length)).any
            (fun x => now - x.Time < opts.Timeout * (combo.Buttons.length : Int)) = true := by
          rw [List.any_eq_true]
          exact ⟨e, he, by simpa using ht⟩
        rw [hany]
        rfl
      · rw [if_neg hw]
  refine ⟨hm, ?_⟩
  have hlist : checkSequencesList now ip.registeredCombos ip.sequenceBuffer
      = ⟨[], [], ip.sequenceBuffer⟩ := by
    rw [hreg]
    simp [checkSequencesList, hconf, hm]
  unfold Processor.checkSequences
  rw [hlist]
  simp

/-- Witness for the amended C4: same shape as the counterexample but with
the stray at time 600, so now - 600 = 450 < 1000 and the strict check
blocks the trigger and leaves the processor unchanged. -/
theorem strictSequence_blocks_recent_strays_witness :
    matchesSequence [⟨9, 600⟩, ⟨1, 900⟩, ⟨2, 1050⟩] [1, 2] ⟨500, true, false⟩ 1050 = false ∧
    ({ baseProcessor emptyMapping with
        registeredCombos := [⟨"strict", [1, 2], ComboConfig.seq ⟨500, true, false⟩, false⟩],
        sequenceBuffer := [⟨9, 600⟩, ⟨1, 900⟩, ⟨2, 1050⟩] } : Processor).checkSequences 1050
      = { baseProcessor emptyMapping with
          registeredCombos := [⟨"strict", [1, 2], ComboConfig.seq ⟨500, true, false⟩, false⟩],
          sequenceBuffer := [⟨9, 600⟩, ⟨1, 900⟩, ⟨2, 1050⟩] } :=
  strictSequence_blocks_recent_strays
    ({ baseProcessor emptyMapping with
       registeredCombos := [⟨"strict", [1, 2], ComboConfig.seq ⟨500, true, false⟩, false⟩],
       sequenceBuffer := [⟨9, 600⟩, ⟨1, 900⟩, ⟨2, 1050⟩] }) 1050
    ⟨"strict", [1, 2], ComboConfig.seq ⟨500, true, false⟩, false⟩
    ⟨500, true, false⟩ ⟨9, 600⟩ rfl rfl rfl (by decide) (by decide)

/-! ## C2: chord triggering -/

theorem chordScanAux_allPressed (states : List (Int × ButtonState))
    (bts : List VirtualButton) :
    ∀ e l : Int, (chordScanAux states e l bts).allPressed = allButtonsPressed states bts := by
  induction bts with
  | nil => intro e l; simp [chordScanAux, allButtonsPressed]
  | cons b rest ih =>
    intro e l
    cases hlk : lookup b states with
    | none => simp [chordScanAux, hlk, allButtonsPressed]
    | some st =>
      by_cases hp : st.Pressed = true
      · simp [chordScanAux, hlk, hp, allButtonsPressed, List.all_cons, ih]
      · have hp2 : st.Pressed = false := by simpa using hp
        simp [chordScanAux, hlk, hp2, allButtonsPressed, List.all_cons]

theorem chordScanAux_minmax (states : List (Int × ButtonState)) (bts : List VirtualButton) :
    (∀ b ∈ bts, ∃ st, lookup b states = some st ∧ st.Pressed = true ∧ 0 < st.PressTime) →
    ∀ e l : Int, 0 < e →
      chordScanAux states e l bts
        = ⟨true, (pressTimesOf states bts).foldl min e, (pressTimesOf states bts).foldl max l⟩ := by
  induction bts with
  | nil => intro hall e l he; simp [chordScanAux, pressTimesOf]
  | cons b rest ih =>
    intro hall e l he
    obtain ⟨st, hlk, hp, hpt⟩ := hall b (List.mem_cons_self b rest)
    have hmin : (if e = 0 ∨ st.PressTime < e then st.PressTime else e) = min e st.PressTime := by
      by_cases hlt : st.PressTime < e
      · rw [if_pos (Or.inr hlt)]
        exact (min_eq_right (le_of_lt hlt)).symm
      · rw [if_neg (by push_neg; exact ⟨by omega, by omega⟩)]
        exact (min_eq_left (by omega)).symm
    have hmax : (if l < st.PressTime then st.PressTime else l) = max l st.PressTime := by
      by_cases hlt : l < st.PressTime
      · rw [if_pos hlt]
        exact (max_eq_right (le_of_lt hlt)).symm
      · rw [if_neg hlt]
        exact (max_eq_left (by omega)).symm
    have hpts : pressTimesOf states (b :: rest) = st.PressTime :: pressTimesOf states rest := by
      simp [pressTimesOf, hlk]
    simp only [chordScanAux, hlk]
    rw [if_pos hp, hmin, hmax,
      ih (fun d hd => hall d (List.mem_cons_of_mem b hd)) _ _ (lt_min he hpt), hpts]
    simp [List.foldl_cons]

/-- The chord condition tested by the code (all pressed, scan spread within
the window) is exactly the claim condition (all ButtonState.Pressed true
and max(PressTime) - min(PressTime) within the window), given that
recorded press times are positive (they come from time.Now, so the Go zero
time sentinel is never a real press time). -/
theorem chordCondition_iff (states : List (Int × ButtonState)) (buttons : List VirtualButton)
    (w : Int) (hne : buttons ≠ [])
    (hpos : ∀ b ∈ buttons, ∀ st, lookup b states = some st →
      st.Pressed = true → 0 < st.PressTime) :
    (((chordScan states buttons).allPressed = true ∧
      (chordScan states buttons).latest - (chordScan states buttons).earliest ≤ w) ↔
    (allButtonsPressed states buttons = true ∧ chordSpreadLE states buttons w = true)) := by
  by_cases hall : allButtonsPressed states buttons = true
  · have hex : ∀ b ∈ buttons, ∃ st,
        lookup b states = some st ∧ st.Pressed = true ∧ 0 < st.PressTime := by
      intro b hb
      have hParse := (List.all_eq_true.mp hall) b hb
      cases hlk : lookup b states with
      | none => rw [hlk] at hParse; cases hParse
      | some st =>
        rw [hlk] at hParse
        exact ⟨st, rfl, hParse, hpos b hb st hlk hParse⟩
    obtain ⟨b, rest, rfl⟩ : ∃ b rest, buttons = b :: rest := by
      cases buttons with
      | nil => exact absurd rfl hne
      | cons b rest => exact ⟨b, rest, rfl⟩
    obtain ⟨st, hlk, hp, hpt⟩ := hex b (List.mem_cons_self b rest)
    have hscan : chordScan states (b :: rest)
        = ⟨true, (pressTimesOf states rest).foldl min st.PressTime,
           (pressTimesOf states rest).foldl max st.PressTime⟩ := by
      have hstep : chordScanAux states 0 0 (b :: rest)
          = chordScanAux states st.PressTime st.PressTime rest := by
        simp [chordScanAux, hlk, hp, hpt]
      unfold chordScan
      rw [hstep]
      exact chordScanAux_minmax states rest
        (fun d hd => hex d (List.mem_cons_of_mem b hd)) _ _ hpt
    have hpts : pressTimesOf states (b :: rest) = st.PressTime :: pressTimesOf states rest := by
      simp [pressTimesOf, hlk]
    rw [hscan]
    unfold chordSpreadLE
    rw [hpts]
    simp [hall]
  · have hfalse : (chordScan states buttons).allPressed = false := by
      unfold chordScan
      rw [chordScanAux_allPressed states buttons 0 0]
      simpa using hall
    simp [hfalse, hall]

theorem runComboPass_append (step : RegisteredCombo → ComboStep)
    (l1 l2 : List RegisteredCombo) :
    runComboPass step (l1 ++ l2)
      = ⟨(runComboPass step l1).combos ++ (runComboPass step l2).combos,
         (runComboPass step l1).events ++ (runComboPass step l2).events,
         (runComboPass step l1).calls ++ (runComboPass step l2).calls⟩ := by
  induction l1 with
  | nil => simp [runComboPass]
  | cons c rest ih => simp [runComboPass, ih]

/-- C2: a registered chord that is not Active triggers on a chord pass
exactly when every one of its buttons has ButtonState.Pressed true and
max(PressTime) - min(PressTime) is within the Window; triggering sets
active, produces exactly one triggered ComboEvent, and invokes OnTrigger
(when present); while active the pass leaves the chord untouched and
produces nothing, so it cannot re-trigger until a release resets active;
and checkChords appends every produced event and callback call, in
registration order, to the processor queues. -/
theorem chord_trigger_spec (ip : Processor) (now : Int)
    (pre post : List RegisteredCombo) (combo : RegisteredCombo) (opts : ChordOptions)
    (hreg : ip.registeredCombos = pre ++ combo :: post)
    (hconf : combo.config = ComboConfig.chord opts)
    (hne : combo.Buttons ≠ [])
    (hpos : ∀ b ∈ combo.Buttons, ∀ st, lookup b ip.buttonStates = some st →
      st.Pressed = true → 0 < st.PressTime) :
    (combo.active = false →
      (((allButtonsPressed ip.buttonStates combo.Buttons = true ∧
          chordSpreadLE ip.buttonStates combo.Buttons opts.Window = true) ↔
        checkChordCombo ip.buttonStates combo
          = ⟨{ combo with active := true },
             [⟨combo.ID, ComboType.chord, combo.Buttons, true⟩],
             if opts.hasOnTrigger then [(combo.ID, true)] else []⟩) ∧
      (¬ (allButtonsPressed ip.buttonStates combo.Buttons = true ∧
            chordSpreadLE ip.buttonStates combo.Buttons opts.Window = true) →
        checkChordCombo ip.buttonStates combo = ⟨combo, [], []⟩))) ∧
    (combo.active = true → checkChordCombo ip.buttonStates combo = ⟨combo, [], []⟩) ∧
    (ip.checkChords now).registeredCombos
      = (runComboPass (checkChordCombo ip.buttonStates) pre).combos
        ++ (checkChordCombo ip.buttonStates combo).combo
          :: (runComboPass (checkChordCombo ip.buttonStates) post).combos ∧
    (ip.checkChords now).comboEventQueue
      = ip.comboEventQueue
        ++ (runComboPass (checkChordCombo ip.buttonStates) pre).events
        ++ (checkChordCombo ip.buttonStates combo).events
        ++ (runComboPass (checkChordCombo ip.buttonStates) post).events ∧
    (ip.checkChords now).calls
      = ip.calls
        ++ (runComboPass (checkChordCombo ip.buttonStates) pre).calls
        ++ (checkChordCombo ip.buttonStates combo).calls
        ++ (runComboPass (checkChordCombo ip.buttonStates) post).calls := by
  have hcond := chordCondition_iff ip.buttonStates combo.Buttons opts.Window hne hpos
  refine ⟨?_, ?_, ?_, ?_, ?_⟩
  · intro hactive
    constructor
    · constructor
      · intro hclaim
        have hcode := hcond.mpr hclaim
        simp [checkChordCombo, hconf, hactive, hcode]
      · intro hstep
        by_cases hcode : (chordScan ip.buttonStates combo.Buttons).allPressed = true ∧
            (chordScan ip.buttonStates combo.Buttons).latest
              - (chordScan ip.buttonStates combo.Buttons).earliest ≤ opts.Window
        · exact hcond.mp hcode
        · exfalso
          have hstep2 : checkChordCombo ip.buttonStates combo = ⟨combo, [], []⟩ := by
            simp only [checkChordCombo, hconf]
            rw [if_neg (show ¬ combo.active = true from by simp [hactive]), if_neg hcode]
          rw [hstep2] at hstep
          have := congrArg ComboStep.events hstep
          simp at this
    · intro hnclaim
      have hncode : ¬ ((chordScan ip.buttonStates combo.Buttons).allPressed = true ∧
          (chordScan ip.buttonStates combo.Buttons).latest
            - (chordScan ip.buttonStates combo.Buttons).earliest ≤ opts.Window) :=
        fun hcode => hnclaim (hcond.mp hcode)
      simp only [checkChordCombo, hconf]
      rw [if_neg (show ¬ combo.active = true from by simp [hactive]), if_neg hncode]
  · intro hactive
    simp [checkChordCombo, hconf, hactive]
  · show (runComboPass (checkChordCombo ip.buttonStates) ip.registeredCombos).combos = _
    rw [hreg, runComboPass_append]
    simp [runComboPass]
  · show ip.comboEventQueue
        ++ (runComboPass (checkChordCombo ip.buttonStates) ip.registeredCombos).events = _
    rw [hreg, runComboPass_append]
    simp [runComboPass]
  · show ip.calls
        ++ (runComboPass (checkChordCombo ip.buttonStates) ip.registeredCombos).calls = _
    rw [hreg, runComboPass_append]
    simp [runComboPass]

/-- Witness for C2: chord of buttons 1 and 2 with window 100, both pressed
at times 10 and 60 (spread 50): the chord triggers, activates, enqueues
its event and calls its callback; and the inactive checks on the processor
level place exactly that event on the queue. -/
theorem chord_trigger_spec_witness :
    checkChordCombo [(1, ⟨true, 10⟩), (2, ⟨true, 60⟩)]
        ⟨"quick", [1, 2], ComboConfig.chord ⟨100, true, false⟩, false⟩
      = ⟨⟨"quick", [1, 2], ComboConfig.chord ⟨100, true, false⟩, true⟩,
         [⟨"quick", ComboType.chord, [1, 2], true⟩], [("quick", true)]⟩ ∧
    (({ baseProcessor emptyMapping with
         buttonStates := [(1, ⟨true, 10⟩), (2, ⟨true, 60⟩)],
         registeredCombos :=
           [⟨"quick", [1, 2], ComboConfig.chord ⟨100, true, false⟩, false⟩] } : Processor).checkChords
        60).comboEventQueue = [⟨"quick", ComboType.chord, [1, 2], true⟩] := by
  have h := chord_trigger_spec
    ({ baseProcessor emptyMapping with
       buttonStates := [(1, ⟨true, 10⟩), (2, ⟨true, 60⟩)],
       registeredCombos :=
         [⟨"quick", [1, 2], ComboConfig.chord ⟨100, true, false⟩, false⟩] }) 60 [] []
    ⟨"quick", [1, 2], ComboConfig.chord ⟨100, true, false⟩, false⟩ ⟨100, true, false⟩
    rfl rfl (by decide) (by decide)
  have hstep := ((h.1 rfl).1).mp (by decide)
  refine ⟨hstep, ?_⟩
  rw [h.2.2.2.1, hstep]
  rfl

end Gabagool
